import Mathlib

/-!
Verification of the BlitzQuest client (static JavaScript of the board game).

This file gives a shallow embedding, in Lean, of the client-side logic of
the repository: the HTML-escaping helper, the render functions that consume
game-state snapshots, the question-timeout timer state machine, the duel
modal renderer, the activity-log state diffing, the response handling of
mutation requests, and the polling intervals.  Server-side components that
the specification describes but that are not part of the shipped source
(the turn coordinator and the pending-action resolver) are modelled from
the specification text and are marked as such.

Conventions: JavaScript strings are Lean `String` (or `List Char` for the
character-level escaping lemmas), JS numbers holding integers are `Int` or
`Nat`, `null`/`undefined` is `Option.none`, and JS's stable
`Array.prototype.sort` is modelled by a stable insertion sort.
-/

namespace BlitzQuest

/-! ## Data model: the game-state snapshot as consumed by the client -/

/-- A player entry of `state.players` as the client reads it. -/
structure Player where
  id : Nat
  username : String
  position : Int
  hp : Int
  coins : Int
  turn_order : Int
  is_alive : Bool
  is_you : Bool
  is_current_turn : Bool
  deriving Repr, DecidableEq

/-- A tile entry of `state.tiles`. -/
structure Tile where
  position : Int
  type : String
  type_display : Option String
  label : Option String
  deriving Repr, DecidableEq

/-- `state.pending_question` payload. -/
structure Question where
  id : Option Nat
  prompt : String
  choices : List String
  correct_index : Option Nat
  changed_once : Bool
  deriving Repr, DecidableEq

/-- One entry of `state.pending_shop.offers`. -/
structure ShopOffer where
  card_type_id : Nat
  name : String
  description : String
  cost : Int
  deriving Repr, DecidableEq

/-- `state.pending_shop` payload. -/
structure Shop where
  offers : List ShopOffer
  deriving Repr, DecidableEq

/-- One entry of `state.pending_gun.targets`. -/
structure GunTarget where
  id : Nat
  username : String
  hp : Int
  deriving Repr, DecidableEq

/-- `state.pending_gun` payload. -/
structure Gun where
  targets : List GunTarget
  deriving Repr, DecidableEq

/-- `state.draft` payload (`renderDraftUI` reads `draft.active`). -/
structure Draft where
  active : Bool
  picks_done : Nat
  max_picks : Nat
  options : List Nat
  deriving Repr, DecidableEq

/-- The duel reveal block (`duel.reveal`), present only once the backend
chooses to reveal the committed choices. -/
structure DuelReveal where
  initiator_choice : String
  opponent_choice : String
  deriving Repr, DecidableEq

/-- `state.pending_duel` payload as read by `renderDuelUI`. -/
structure Duel where
  status : String
  you_committed : Bool
  you_predicted : Bool
  winner_id : Option Nat
  initiator_id : Nat
  opponent_id : Nat
  is_draw : Bool
  reveal : Option DuelReveal
  deriving Repr, DecidableEq

/-- `state.ordering` payload used during the turn-order phase.  The JS
`roll_history` object keyed by player id is an association list here. -/
structure OrderingInfo where
  pending_player_ids : List Nat
  roll_history : List (Nat × List Int)
  deriving Repr, DecidableEq

/-- The game-state snapshot delivered by `GET /games/(id)/state/`, restricted
to the fields the embedded client functions read. -/
structure GameState where
  id : Nat
  status : String
  players : List Player
  tiles : List Tile
  board_length : Nat
  you_player_id : Option Nat
  current_player_id : Option Nat
  pending_question : Option Question
  pending_shop : Option Shop
  pending_duel : Option Duel
  pending_gun : Option Gun
  draft : Option Draft
  ordering : Option OrderingInfo
  deriving Repr, DecidableEq

/-! ## escapeHtml (game_board.js, game_state.js, card-duel script)

The JS function applies five global `String.replace` passes in order:
`&` to `&amp;`, then `<` to `&lt;`, `>` to `&gt;`, `"` to `&quot;` and
`'` to `&#039;`.  A global single-character replace is `List.bind` of a
per-character expansion over the string's characters. -/

/-- The characters of the entity `&amp;`. -/
def ampEntity : List Char := ['&', 'a', 'm', 'p', ';']

/-- The characters of the entity `&lt;`. -/
def ltEntity : List Char := ['&', 'l', 't', ';']

/-- The characters of the entity `&gt;`. -/
def gtEntity : List Char := ['&', 'g', 't', ';']

/-- The characters of the entity `&quot;`. -/
def quotEntity : List Char := ['&', 'q', 'u', 'o', 't', ';']

/-- The characters of the entity `&#039;`. -/
def aposEntity : List Char := ['&', '#', '0', '3', '9', ';']

/-- First pass: the global replace of the ampersand by its entity. -/
def escAmp (c : Char) : List Char := if c = '&' then ampEntity else [c]

/-- Second pass: the global replace of the less-than sign by its entity. -/
def escLt (c : Char) : List Char := if c = '<' then ltEntity else [c]

/-- Third pass: the global replace of the greater-than sign by its entity. -/
def escGt (c : Char) : List Char := if c = '>' then gtEntity else [c]

/-- Fourth pass: the global replace of the double quote by its entity. -/
def escQuot (c : Char) : List Char := if c = '"' then quotEntity else [c]

/-- Fifth pass: the global replace of the single quote by its entity. -/
def escApos (c : Char) : List Char := if c = '\'' then aposEntity else [c]

/-- The body of `escapeHtml` on an actual string: the five passes in the
source order. -/
def escapeHtmlChars (s : List Char) : List Char :=
  ((((s.flatMap escAmp).flatMap escLt).flatMap escGt).flatMap escQuot).flatMap escApos

/-- `escapeHtml` itself: `null`/`undefined` return the empty string. -/
def escapeHtml : Option (List Char) → List Char
  | none => []
  | some s => escapeHtmlChars s

/-- Single-pass specification of the escaping: each character mapped
independently to its entity. -/
def escChar (c : Char) : List Char :=
  if c = '&' then ampEntity
  else if c = '<' then ltEntity
  else if c = '>' then gtEntity
  else if c = '"' then quotEntity
  else if c = '\'' then aposEntity
  else [c]

lemma escapeHtmlChars_nil : escapeHtmlChars [] = [] := rfl

lemma fm_cons {α β : Type} (f : α → List β) (x : α) (xs : List α) :
    (x :: xs).flatMap f = f x ++ xs.flatMap f := rfl

lemma fm_append {α β : Type} (f : α → List β) (a b : List α) :
    (a ++ b).flatMap f = a.flatMap f ++ b.flatMap f := by
  induction a with
  | nil => rfl
  | cons x xs ih => simp [fm_cons, ih, List.append_assoc]

lemma escapeHtmlChars_cons (c : Char) (cs : List Char) :
    escapeHtmlChars (c :: cs) = escChar c ++ escapeHtmlChars cs := by
  unfold escapeHtmlChars
  rw [fm_cons, fm_append, fm_append, fm_append, fm_append]
  congr 1
  by_cases h1 : c = '&'
  · subst h1; decide
  by_cases h2 : c = '<'
  · subst h2; decide
  by_cases h3 : c = '>'
  · subst h3; decide
  by_cases h4 : c = '"'
  · subst h4; decide
  by_cases h5 : c = '\''
  · subst h5; decide
  · simp [escAmp, escLt, escGt, escQuot, escApos, escChar, h1, h2, h3, h4, h5,
      fm_cons]

/-- The five sequential passes equal the single-pass character map. -/
lemma escapeHtmlChars_eq_flatMap (s : List Char) :
    escapeHtmlChars s = s.flatMap escChar := by
  induction s with
  | nil => rfl
  | cons c cs ih => rw [escapeHtmlChars_cons, fm_cons, ih]

/-- Well-formedness of ampersands: the list is a concatenation of blocks,
each block being either a single character other than `&` or one of the
five entities emitted by `escapeHtml`.  In particular every `&` in such a
list starts one of the five entities. -/
inductive AmpBlocks : List Char → Prop
  | nil : AmpBlocks []
  | plain (c : Char) (rest : List Char) (h : c ≠ '&') :
      AmpBlocks rest → AmpBlocks (c :: rest)
  | amp (rest : List Char) : AmpBlocks rest → AmpBlocks (ampEntity ++ rest)
  | lt (rest : List Char) : AmpBlocks rest → AmpBlocks (ltEntity ++ rest)
  | gt (rest : List Char) : AmpBlocks rest → AmpBlocks (gtEntity ++ rest)
  | quot (rest : List Char) : AmpBlocks rest → AmpBlocks (quotEntity ++ rest)
  | apos (rest : List Char) : AmpBlocks rest → AmpBlocks (aposEntity ++ rest)

lemma ampBlocks_escChar_append (c : Char) (rest : List Char)
    (h : AmpBlocks rest) : AmpBlocks (escChar c ++ rest) := by
  by_cases h1 : c = '&'
  · subst h1
    exact AmpBlocks.amp rest h
  by_cases h2 : c = '<'
  · subst h2
    exact AmpBlocks.lt rest h
  by_cases h3 : c = '>'
  · subst h3
    exact AmpBlocks.gt rest h
  by_cases h4 : c = '"'
  · subst h4
    exact AmpBlocks.quot rest h
  by_cases h5 : c = '\''
  · subst h5
    exact AmpBlocks.apos rest h
  · have hc : escChar c = [c] := by
      simp [escChar, h1, h2, h3, h4, h5]
    rw [hc, List.cons_append, List.nil_append]
    exact AmpBlocks.plain c rest h1 h

lemma escChar_no_bad (c : Char) :
    ∀ d ∈ escChar c, d ≠ '<' ∧ d ≠ '>' ∧ d ≠ '"' ∧ d ≠ '\'' := by
  by_cases h1 : c = '&'
  · subst h1; decide
  by_cases h2 : c = '<'
  · subst h2; decide
  by_cases h3 : c = '>'
  · subst h3; decide
  by_cases h4 : c = '"'
  · subst h4; decide
  by_cases h5 : c = '\''
  · subst h5; decide
  · intro d hd
    have hc : escChar c = [c] := by
      simp [escChar, h1, h2, h3, h4, h5]
    rw [hc] at hd
    simp only [List.mem_singleton] at hd
    subst hd
    exact ⟨h2, h3, h4, h5⟩

lemma escChar_clean (c : Char)
    (h : c ≠ '&' ∧ c ≠ '<' ∧ c ≠ '>' ∧ c ≠ '"' ∧ c ≠ '\'') :
    escChar c = [c] := by
  obtain ⟨h1, h2, h3, h4, h5⟩ := h
  simp [escChar, h1, h2, h3, h4, h5]

/-- C8: `escapeHtml` is total and XSS-neutralizing.  `null`/`undefined`
(modelled as `none`) give the empty string; for every string the result
contains no raw angle bracket or quote character and every ampersand starts
one of the five emitted entities; a string without the five special
characters is returned unchanged. -/
theorem escapeHtml_total_and_neutralizing :
    escapeHtml none = [] ∧
    ∀ s : List Char,
      (∀ d ∈ escapeHtml (some s), d ≠ '<' ∧ d ≠ '>' ∧ d ≠ '"' ∧ d ≠ '\'') ∧
      AmpBlocks (escapeHtml (some s)) ∧
      ((∀ c ∈ s, c ≠ '&' ∧ c ≠ '<' ∧ c ≠ '>' ∧ c ≠ '"' ∧ c ≠ '\'') →
        escapeHtml (some s) = s) := by
  refine ⟨rfl, fun s => ⟨?_, ?_, ?_⟩⟩
  · show ∀ d ∈ escapeHtmlChars s, _
    rw [escapeHtmlChars_eq_flatMap]
    induction s with
    | nil => intro d hd; cases hd
    | cons c cs ih =>
      intro d hd
      rw [fm_cons, List.mem_append] at hd
      rcases hd with hd | hd
      · exact escChar_no_bad c d hd
      · exact ih d hd
  · show AmpBlocks (escapeHtmlChars s)
    rw [escapeHtmlChars_eq_flatMap]
    induction s with
    | nil => exact AmpBlocks.nil
    | cons c cs ih =>
      rw [fm_cons]
      exact ampBlocks_escChar_append c _ ih
  · intro hclean
    show escapeHtmlChars s = s
    rw [escapeHtmlChars_eq_flatMap]
    induction s with
    | nil => rfl
    | cons c cs ih =>
      rw [fm_cons, escChar_clean c (hclean c (List.mem_cons_self c cs))]
      rw [ih fun d hd => hclean d (List.mem_cons_of_mem c hd)]
      rfl

/-- Witness for C8: the theorem applied at the concrete string `hi`,
discharging the cleanliness hypothesis of the identity part. -/
theorem escapeHtml_total_and_neutralizing_witness :
    escapeHtml (some ['h', 'i']) = ['h', 'i'] :=
  (escapeHtml_total_and_neutralizing.2 ['h', 'i']).2.2 (by decide)

/-! ## C7: polling intervals

Every periodic polling loop the client installs, with the
`setInterval` period (in milliseconds) taken verbatim from the source.
The dice-shuffle and question-countdown `setInterval`s and the landing
page's chest animation loop do not poll the server and are not polling
loops. -/

/-- `window.gamePoller` in game_board.js: polls `fetchGameState` every
2000 ms. -/
def gamePollerIntervalMs : Nat := 2000

/-- `window.__cardDuelInterval` in the card-duel script: polls
`fetchCardDuelState` every 1500 ms. -/
def cardDuelIntervalMs : Nat := 1500

/-- `window.__gameStateInterval` in game_state.js: polls `fetchGameState`
every 2000 ms. -/
def gameStateIntervalMs : Nat := 2000

/-- `window.__lobbyInterval` in game_lobby.js: polls `fetchLobbyState`
every 2000 ms. -/
def lobbyIntervalMs : Nat := 2000

/-- `window.__boardInterval` in the unnamed board script: polls
`fetchGameState` every 2000 ms. -/
def boardIntervalMs : Nat := 2000

/-- `CHAT_POLL_MS` in game_board.js: `chatPoller` polls `fetchChat` at this
period. -/
def CHAT_POLL_MS : Nat := 2000

/-- All periodic server-polling loops installed by the client scripts. -/
def clientPollIntervalsMs : List Nat :=
  [gamePollerIntervalMs, cardDuelIntervalMs, gameStateIntervalMs,
   lobbyIntervalMs, boardIntervalMs, CHAT_POLL_MS]

/-- C7: every periodic polling loop the client installs uses a fixed
interval lying in the closed range 1500 to 2000 milliseconds; in
particular the state-endpoint pollers poll every 1.5 to 2 seconds. -/
theorem poll_intervals_in_range :
    ∀ ms ∈ clientPollIntervalsMs, 1500 ≤ ms ∧ ms ≤ 2000 := by
  decide

/-- Witness for C7: the theorem applied to the board poller's interval. -/
theorem poll_intervals_in_range_witness :
    1500 ≤ gamePollerIntervalMs ∧ gamePollerIntervalMs ≤ 2000 :=
  poll_intervals_in_range gamePollerIntervalMs (by decide)

/-! ## A stable sort modelling JS `Array.prototype.sort`

`Array.prototype.sort` is required (since ES2019) to be stable; the client
always sorts copies (`[...players].sort(...)`, `tiles.slice().sort(...)`).
A stable comparison sort is extensionally a stable insertion sort, which is
what we use. -/

/-- Insert `x` into `l`, before the first element `y` with `le x y`. -/
def insertStable {α : Type} (le : α → α → Bool) (x : α) : List α → List α
  | [] => [x]
  | y :: ys => if le x y then x :: y :: ys else y :: insertStable le x ys

/-- Stable insertion sort with a boolean `le` relation. -/
def sortStable {α : Type} (le : α → α → Bool) : List α → List α
  | [] => []
  | x :: xs => insertStable le x (sortStable le xs)

lemma insertStable_perm {α : Type} (le : α → α → Bool) (x : α) (l : List α) :
    (insertStable le x l).Perm (x :: l) := by
  induction l with
  | nil => exact List.Perm.refl _
  | cons y ys ih =>
    by_cases h : le x y
    · simp [insertStable, h]
    · simp only [insertStable, if_neg h]
      exact (ih.cons y).trans (List.Perm.swap x y ys)

lemma sortStable_perm {α : Type} (le : α → α → Bool) (l : List α) :
    (sortStable le l).Perm l := by
  induction l with
  | nil => exact List.Perm.refl _
  | cons x xs ih =>
    exact (insertStable_perm le x (sortStable le xs)).trans (ih.cons x)

lemma insertStable_pairwise {α : Type} (le : α → α → Bool)
    (htrans : ∀ a b c, le a b = true → le b c = true → le a c = true)
    (htot : ∀ a b, le a b = true ∨ le b a = true)
    (x : α) (l : List α) (h : l.Pairwise (fun a b => le a b = true)) :
    (insertStable le x l).Pairwise (fun a b => le a b = true) := by
  induction l with
  | nil => simp [insertStable]
  | cons y ys ih =>
    rcases List.pairwise_cons.mp h with ⟨hy, hys⟩
    by_cases hxy : le x y
    · simp only [insertStable, if_pos hxy]
      refine List.pairwise_cons.mpr ⟨?_, h⟩
      intro z hz
      rcases List.mem_cons.mp hz with rfl | hz
      · exact hxy
      · exact htrans x y z hxy (hy z hz)
    · simp only [insertStable, if_neg hxy]
      refine List.pairwise_cons.mpr ⟨?_, ih hys⟩
      intro z hz
      have hz' : z = x ∨ z ∈ ys :=
        List.mem_cons.mp ((insertStable_perm le x ys).mem_iff.mp hz)
      rcases hz' with rfl | hz'
      · rcases htot z y with hc | hc
        · exact absurd hc hxy
        · exact hc
      · exact hy z hz'

lemma sortStable_pairwise {α : Type} (le : α → α → Bool)
    (htrans : ∀ a b c, le a b = true → le b c = true → le a c = true)
    (htot : ∀ a b, le a b = true ∨ le b a = true) (l : List α) :
    (sortStable le l).Pairwise (fun a b => le a b = true) := by
  induction l with
  | nil => simp [sortStable]
  | cons x xs ih => exact insertStable_pairwise le htrans htot x _ ih

lemma filter_insertStable_of_neg {α : Type} (le : α → α → Bool)
    (P : α → Bool) (x : α) (hx : P x = false) (l : List α) :
    (insertStable le x l).filter P = l.filter P := by
  induction l with
  | nil => simp [insertStable, hx]
  | cons y ys ih =>
    by_cases hxy : le x y
    · simp [insertStable, hxy, hx]
    · simp only [insertStable, if_neg hxy]
      by_cases hy : P y <;> simp [List.filter, hy, ih]

lemma filter_insertStable_of_pos {α : Type} (le : α → α → Bool)
    (P : α → Bool) (x : α) (hx : P x = true)
    (hcl : ∀ y, P y = true → le x y = true) (l : List α) :
    (insertStable le x l).filter P = x :: l.filter P := by
  induction l with
  | nil => simp [insertStable, hx]
  | cons y ys ih =>
    by_cases hxy : le x y
    · simp [insertStable, hxy, hx]
    · have hy : P y = false := by
        cases hPy : P y
        · rfl
        · exact absurd (hcl y hPy) hxy
      simp only [insertStable, if_neg hxy]
      rw [List.filter_cons_of_neg (by simp [hy]), ih,
        List.filter_cons_of_neg (by simp [hy])]

lemma filter_sortStable {α : Type} (le : α → α → Bool) (P : α → Bool)
    (hcl : ∀ a b, P a = true → P b = true → le a b = true) (l : List α) :
    (sortStable le l).filter P = l.filter P := by
  induction l with
  | nil => rfl
  | cons x xs ih =>
    show (insertStable le x (sortStable le xs)).filter P = _
    cases hx : P x with
    | false =>
      rw [filter_insertStable_of_neg le P x hx, ih,
        List.filter_cons_of_neg (by simp [hx])]
    | true =>
      rw [filter_insertStable_of_pos le P x hx (fun y hy => hcl x y hx hy), ih,
        List.filter_cons_of_pos (by simp [hx])]

/-! ## computeProvisionalOrder (game_board.js)

The ordering modal sorts players by their roll-history sequences with the
comparator

  for i in 0 .. max(len A, len B) - 1:  av = A[i] ?? -1; bv = B[i] ?? -1;
  if av != bv: return bv - av
  return 0

i.e. position-by-position descending with missing rolls read as -1. -/

/-- Head of a roll sequence with the JS `?? -1` default. -/
def seqHead : List Int → Int
  | [] => -1
  | a :: _ => a

/-- Tail of a roll sequence (empty stays empty). -/
def seqTail : List Int → List Int
  | [] => []
  | _ :: t => t

/-- The roll-sequence comparator: `.lt` means the left player sorts first
(its first differing padded roll is larger). -/
def cmpSeq : List Int → List Int → Ordering
  | [], [] => .eq
  | [], b :: bs => if -1 = b then cmpSeq [] bs else if b < -1 then .lt else .gt
  | a :: as, [] => if a = -1 then cmpSeq as [] else if -1 < a then .lt else .gt
  | a :: as, b :: bs => if a = b then cmpSeq as bs else if b < a then .lt else .gt
  termination_by A B => A.length + B.length

lemma cmpSeq_head_tail (A B : List Int) (h : ¬(A = [] ∧ B = [])) :
    cmpSeq A B =
      if seqHead A = seqHead B then cmpSeq (seqTail A) (seqTail B)
      else if seqHead B < seqHead A then .lt else .gt := by
  match A, B with
  | [], [] => exact absurd ⟨rfl, rfl⟩ h
  | [], b :: bs => simp only [cmpSeq, seqHead, seqTail]
  | a :: as, [] => simp only [cmpSeq, seqHead, seqTail]
  | a :: as, b :: bs => simp only [cmpSeq, seqHead, seqTail]

lemma seqTail_length (A : List Int) : (seqTail A).length = A.length - 1 := by
  cases A <;> simp [seqTail]

lemma not_nil_length {A : List Int} (h : A ≠ []) : 1 ≤ A.length := by
  cases A with
  | nil => exact absurd rfl h
  | cons a as => simp

lemma cmpSeq_swap_aux :
    ∀ n : Nat, ∀ A B : List Int, A.length + B.length ≤ n →
      cmpSeq B A = (cmpSeq A B).swap := by
  intro n
  induction n with
  | zero =>
    intro A B h
    have hA : A = [] := List.eq_nil_of_length_eq_zero (by omega)
    have hB : B = [] := List.eq_nil_of_length_eq_zero (by omega)
    subst hA; subst hB; simp [cmpSeq]; decide
  | succ n ih =>
    intro A B hlen
    by_cases hz : A = [] ∧ B = []
    · rcases hz with ⟨rfl, rfl⟩; simp [cmpSeq]; decide
    · have hz' : ¬(B = [] ∧ A = []) := fun h => hz ⟨h.2, h.1⟩
      have hpos : 1 ≤ A.length + B.length := by
        rcases not_and_or.mp hz with h | h
        · have := not_nil_length h; omega
        · have := not_nil_length h; omega
      have hlen' : (seqTail A).length + (seqTail B).length ≤ n := by
        rw [seqTail_length, seqTail_length]; omega
      rw [cmpSeq_head_tail A B hz, cmpSeq_head_tail B A hz']
      by_cases he : seqHead A = seqHead B
      · rw [if_pos he.symm, if_pos he]
        exact ih _ _ hlen'
      · rw [if_neg (fun h => he h.symm), if_neg he]
        by_cases hlt : seqHead B < seqHead A
        · rw [if_pos hlt, if_neg (by omega : ¬ seqHead A < seqHead B)]
          rfl
        · rw [if_neg hlt, if_pos (by omega : seqHead A < seqHead B)]
          rfl

lemma cmpSeq_swap (A B : List Int) : cmpSeq B A = (cmpSeq A B).swap :=
  cmpSeq_swap_aux (A.length + B.length) A B le_rfl

lemma cmpSeq_nil_nil : cmpSeq [] [] = .eq := by simp [cmpSeq]

lemma cmpSeq_eq_congr_aux :
    ∀ n : Nat, ∀ A B C : List Int,
      A.length + B.length + C.length ≤ n →
      cmpSeq A B = .eq → cmpSeq A C = cmpSeq B C := by
  intro n
  induction n with
  | zero =>
    intro A B C h _
    have hA : A = [] := List.eq_nil_of_length_eq_zero (by omega)
    have hB : B = [] := List.eq_nil_of_length_eq_zero (by omega)
    subst hA; subst hB; rfl
  | succ n ih =>
    intro A B C hlen heq
    by_cases hAB : A = [] ∧ B = []
    · rcases hAB with ⟨rfl, rfl⟩; rfl
    · rw [cmpSeq_head_tail A B hAB] at heq
      by_cases he : seqHead A = seqHead B
      · rw [if_pos he] at heq
        by_cases hAC : A = [] ∧ C = []
        · rcases hAC with ⟨rfl, rfl⟩
          have hB' : B ≠ [] := fun h => hAB ⟨rfl, h⟩
          rw [cmpSeq_nil_nil]
          rw [cmpSeq_head_tail B [] (fun h => hB' h.1)]
          rw [if_pos he.symm]
          have hsw : cmpSeq (seqTail B) (seqTail []) =
              (cmpSeq (seqTail []) (seqTail B)).swap := cmpSeq_swap _ _
          rw [hsw, heq]
          rfl
        · by_cases hBC : B = [] ∧ C = []
          · rcases hBC with ⟨rfl, rfl⟩
            have hA' : A ≠ [] := fun h => hAB ⟨h, rfl⟩
            rw [cmpSeq_nil_nil]
            rw [cmpSeq_head_tail A [] (fun h => hA' h.1)]
            rw [if_pos he]
            exact heq
          · have hpos : 1 ≤ A.length + B.length := by
              rcases not_and_or.mp hAB with h | h
              · have := not_nil_length h; omega
              · have := not_nil_length h; omega
            have hlen' : (seqTail A).length + (seqTail B).length +
                (seqTail C).length ≤ n := by
              rw [seqTail_length, seqTail_length, seqTail_length]
              omega
            rw [cmpSeq_head_tail A C hAC, cmpSeq_head_tail B C hBC, he]
            by_cases hc : seqHead B = seqHead C
            · rw [if_pos hc, if_pos hc]
              exact ih _ _ _ hlen' heq
            · rw [if_neg hc, if_neg hc]
      · exfalso
        rw [if_neg he] at heq
        by_cases hlt : seqHead B < seqHead A
        · rw [if_pos hlt] at heq; cases heq
        · rw [if_neg hlt] at heq; cases heq

lemma cmpSeq_eq_congr (A B C : List Int) (h : cmpSeq A B = .eq) :
    cmpSeq A C = cmpSeq B C :=
  cmpSeq_eq_congr_aux (A.length + B.length + C.length) A B C le_rfl h

lemma cmpSeq_lt_trans_aux :
    ∀ n : Nat, ∀ A B C : List Int,
      A.length + B.length + C.length ≤ n →
      cmpSeq A B = .lt → cmpSeq B C = .lt → cmpSeq A C = .lt := by
  intro n
  induction n with
  | zero =>
    intro A B C h h1 _
    have hA : A = [] := List.eq_nil_of_length_eq_zero (by omega)
    have hB : B = [] := List.eq_nil_of_length_eq_zero (by omega)
    subst hA; subst hB
    rw [cmpSeq_nil_nil] at h1; cases h1
  | succ n ih =>
    intro A B C hlen h1 h2
    by_cases hAB : A = [] ∧ B = []
    · rcases hAB with ⟨rfl, rfl⟩; rw [cmpSeq_nil_nil] at h1; cases h1
    by_cases hBC : B = [] ∧ C = []
    · rcases hBC with ⟨rfl, rfl⟩; rw [cmpSeq_nil_nil] at h2; cases h2
    rw [cmpSeq_head_tail A B hAB] at h1
    rw [cmpSeq_head_tail B C hBC] at h2
    have hpos : 1 ≤ A.length + B.length := by
      rcases not_and_or.mp hAB with h | h
      · have := not_nil_length h; omega
      · have := not_nil_length h; omega
    have hlen' : (seqTail A).length + (seqTail B).length +
        (seqTail C).length ≤ n := by
      rw [seqTail_length, seqTail_length, seqTail_length]; omega
    by_cases he1 : seqHead A = seqHead B
    · rw [if_pos he1] at h1
      by_cases he2 : seqHead B = seqHead C
      · -- equal heads on both sides: recurse on the tails
        rw [if_pos he2] at h2
        by_cases hAC : A = [] ∧ C = []
        · exfalso
          rcases hAC with ⟨rfl, rfl⟩
          have hcon := ih [] (seqTail B) [] hlen' h1 h2
          rw [cmpSeq_nil_nil] at hcon; cases hcon
        · rw [cmpSeq_head_tail A C hAC, if_pos (he1.trans he2)]
          exact ih _ _ _ hlen' h1 h2
      · rw [if_neg he2] at h2
        have hlt2 : seqHead C < seqHead B := by
          by_cases h : seqHead C < seqHead B
          · exact h
          · rw [if_neg h] at h2; cases h2
        have hAC : ¬(A = [] ∧ C = []) := by
          rintro ⟨rfl, rfl⟩
          simp only [seqHead] at he1 hlt2
          omega
        rw [cmpSeq_head_tail A C hAC]
        rw [if_neg (by omega : ¬ seqHead A = seqHead C),
          if_pos (by omega : seqHead C < seqHead A)]
    · rw [if_neg he1] at h1
      have hlt1 : seqHead B < seqHead A := by
        by_cases h : seqHead B < seqHead A
        · exact h
        · rw [if_neg h] at h1; cases h1
      by_cases he2 : seqHead B = seqHead C
      · have hAC : ¬(A = [] ∧ C = []) := by
          rintro ⟨rfl, rfl⟩
          simp only [seqHead] at hlt1 he2
          omega
        rw [cmpSeq_head_tail A C hAC]
        rw [if_neg (by omega : ¬ seqHead A = seqHead C),
          if_pos (by omega : seqHead C < seqHead A)]
      · rw [if_neg he2] at h2
        have hlt2 : seqHead C < seqHead B := by
          by_cases h : seqHead C < seqHead B
          · exact h
          · rw [if_neg h] at h2; cases h2
        have hAC : ¬(A = [] ∧ C = []) := by
          rintro ⟨rfl, rfl⟩
          simp only [seqHead] at hlt1 hlt2
          omega
        rw [cmpSeq_head_tail A C hAC]
        rw [if_neg (by omega : ¬ seqHead A = seqHead C),
          if_pos (by omega : seqHead C < seqHead A)]

lemma cmpSeq_lt_trans (A B C : List Int) (h1 : cmpSeq A B = .lt)
    (h2 : cmpSeq B C = .lt) : cmpSeq A C = .lt :=
  cmpSeq_lt_trans_aux (A.length + B.length + C.length) A B C le_rfl h1 h2

/-- `true` iff the comparator result keeps the left element at or before
the right one (comparator value not positive). -/
def ordLe (o : Ordering) : Bool :=
  match o with
  | .gt => false
  | _ => true

lemma ordLe_cmpSeq_total (A B : List Int) :
    ordLe (cmpSeq A B) = true ∨ ordLe (cmpSeq B A) = true := by
  cases h : cmpSeq A B with
  | lt => left; simp [ordLe]
  | eq => left; simp [ordLe]
  | gt =>
    right
    rw [cmpSeq_swap A B, h]
    rfl

lemma ordLe_cmpSeq_trans (A B C : List Int)
    (h1 : ordLe (cmpSeq A B) = true) (h2 : ordLe (cmpSeq B C) = true) :
    ordLe (cmpSeq A C) = true := by
  cases hab : cmpSeq A B with
  | gt => rw [hab] at h1; cases h1
  | eq => rw [cmpSeq_eq_congr A B C hab]; exact h2
  | lt =>
    cases hbc : cmpSeq B C with
    | gt => rw [hbc] at h2; cases h2
    | lt => rw [cmpSeq_lt_trans A B C hab hbc]; rfl
    | eq =>
      have hcb : cmpSeq C B = .eq := by rw [cmpSeq_swap B C, hbc]; rfl
      have hca : cmpSeq C A = cmpSeq B A := cmpSeq_eq_congr C B A hcb
      have hba : cmpSeq B A = .gt := by rw [cmpSeq_swap A B, hab]; rfl
      have : cmpSeq A C = .lt := by
        rw [cmpSeq_swap C A, hca, hba]; rfl
      rw [this]; rfl

lemma cmpSeq_eq_of_eq_eq (A B K : List Int) (h1 : cmpSeq A K = .eq)
    (h2 : cmpSeq B K = .eq) : cmpSeq A B = .eq := by
  have hkb : cmpSeq K B = .eq := by rw [cmpSeq_swap B K, h2]; rfl
  rw [cmpSeq_eq_congr A K B h1, hkb]

/-- The per-player roll sequence: `rh[String(p.id)]` when it is an array,
`[]` otherwise (absent player, or no ordering block at all). -/
def seqOf (st : GameState) (p : Player) : List Int :=
  match st.ordering with
  | none => []
  | some o =>
    match o.roll_history.lookup p.id with
    | some s => s
    | none => []

/-- The boolean order relation realised by the JS comparator inside
`computeProvisionalOrder` (left sorts at or before right). -/
def lePlayersBySeq (st : GameState) (a b : Player) : Bool :=
  ordLe (cmpSeq (seqOf st a) (seqOf st b))

/-- `computeProvisionalOrder(state).sorted`: the players sorted by their
roll-history sequences, descending lexicographically with missing rolls
read as -1, ties keeping input order (stable sort). -/
def computeProvisionalOrder (st : GameState) : List Player :=
  sortStable (lePlayersBySeq st) st.players

/-- C9: `computeProvisionalOrder` returns a permutation of `state.players`,
sorted by the descending position-by-position comparison of roll-history
sequences with missing rolls read as -1; ties keep their relative input
order (stability, stated through filters on comparator-equal classes); and
players absent from `roll_history` get the empty sequence. -/
theorem computeProvisionalOrder_spec (st : GameState) :
    (computeProvisionalOrder st).Perm st.players ∧
    (computeProvisionalOrder st).Pairwise
      (fun a b => ordLe (cmpSeq (seqOf st a) (seqOf st b)) = true) ∧
    (∀ q : Player,
      (computeProvisionalOrder st).filter
          (fun p => decide (cmpSeq (seqOf st p) (seqOf st q) = Ordering.eq))
        = st.players.filter
          (fun p => decide (cmpSeq (seqOf st p) (seqOf st q) = Ordering.eq))) ∧
    (st.ordering = none → ∀ p, seqOf st p = []) ∧
    (∀ o p, st.ordering = some o → o.roll_history.lookup p.id = none →
      seqOf st p = []) := by
  refine ⟨sortStable_perm _ _, ?_, ?_, ?_, ?_⟩
  · exact sortStable_pairwise (lePlayersBySeq st)
      (fun a b c h1 h2 => ordLe_cmpSeq_trans (seqOf st a) (seqOf st b)
        (seqOf st c) h1 h2)
      (fun a b => ordLe_cmpSeq_total (seqOf st a) (seqOf st b)) st.players
  · intro q
    refine filter_sortStable (lePlayersBySeq st) _ ?_ st.players
    intro a b ha hb
    have ha' := of_decide_eq_true ha
    have hb' := of_decide_eq_true hb
    show ordLe (cmpSeq (seqOf st a) (seqOf st b)) = true
    rw [cmpSeq_eq_of_eq_eq _ _ _ ha' hb']
    rfl
  · intro h p
    simp [seqOf, h]
  · intro o p ho hnone
    simp [seqOf, ho, hnone]

/-- Witness for C9: the absent-player clauses applied at concrete states. -/
theorem computeProvisionalOrder_spec_witness :
    seqOf ⟨1, "w", [], [], 0, none, none, none, none, none, none, none, none⟩
        ⟨1, "a", 0, 0, 0, 0, true, false, false⟩ = [] ∧
    seqOf ⟨1, "w", [], [], 0, none, none, none, none, none, none, none,
          some ⟨[], []⟩⟩
        ⟨1, "a", 0, 0, 0, 0, true, false, false⟩ = [] :=
  ⟨(computeProvisionalOrder_spec _).2.2.2.1 rfl _,
   (computeProvisionalOrder_spec _).2.2.2.2 ⟨[], []⟩ _ rfl rfl⟩

/-! ## Player de-duplication by id (game_board.js renderers)

`updateBoardUI`, `updatePlayersUI`, `updatePlayerStatusUI` and
`renderPlayerTokens` all run the same `seenIds` loop, keeping the first
occurrence of each player id. -/

/-- The `seenIds` loop with its accumulated set of already-seen ids. -/
def dedupPlayersAux (seen : List Nat) : List Player → List Player
  | [] => []
  | p :: rest =>
    if p.id ∈ seen then dedupPlayersAux seen rest
    else p :: dedupPlayersAux (p.id :: seen) rest

/-- De-duplicate players by id, keeping the first occurrence. -/
def dedupPlayersById (ps : List Player) : List Player :=
  dedupPlayersAux [] ps

lemma dedupPlayersAux_idem (ps : List Player) :
    ∀ seen, dedupPlayersAux seen (dedupPlayersAux seen ps) =
      dedupPlayersAux seen ps := by
  induction ps with
  | nil => intro seen; rfl
  | cons p rest ih =>
    intro seen
    by_cases hp : p.id ∈ seen
    · simp only [dedupPlayersAux, if_pos hp]
      exact ih seen
    · simp only [dedupPlayersAux, if_neg hp]
      rw [ih (p.id :: seen)]

lemma dedupPlayersById_idem (ps : List Player) :
    dedupPlayersById (dedupPlayersById ps) = dedupPlayersById ps :=
  dedupPlayersAux_idem ps []

/-! ## The four de-duplicating renderers of game_board.js -/

/-- What `updateBoardUI` renders for one tile (the player-independent HTML
is summarised by the label and index text; `tPlayers` only feeds the
`hasCurrent` highlight). -/
structure BoardTileRender where
  position : Int
  indexText : String
  label : String
  symbol : Bool
  hasCurrent : Bool
  deriving Repr, DecidableEq

/-- The tile-type switch of `updateBoardUI` giving the default label. -/
def tileTypeLabel (t : String) : String :=
  if t = "start" then "Start"
  else if t = "finish" then "Finish"
  else if t = "trap" then "Trap"
  else if t = "heal" then "Heal"
  else if t = "bonus" then "Bonus"
  else if t = "question" then "?"
  else if t = "warp" then "Warp"
  else if t = "mass_warp" then "Mass Warp"
  else if t = "duel" then "Duel"
  else if t = "shop" then "Shop"
  else if t = "portal" then "Portal"
  else if t = "gun" then "Gun"
  else ""

/-- `updateBoardUI` (game_board.js): de-duplicates the players, sorts the
tiles by position ascending and renders each tile, with the
`board-tile-current` highlight when a current-turn player stands on it. -/
def updateBoardUI (st : GameState) : List BoardTileRender :=
  let players := dedupPlayersById st.players
  let tiles := sortStable (fun a b => decide (a.position ≤ b.position)) st.tiles
  let boardLen : Nat :=
    if st.board_length ≠ 0 then st.board_length else st.tiles.length
  let lastPos : Int :=
    if 0 < boardLen then (boardLen : Int) - 1 else (st.tiles.length : Int) - 1
  tiles.map fun tile =>
    let tPlayers := players.filter fun p => decide (p.position = tile.position)
    let hasCurrent := tPlayers.any fun p => p.is_current_turn
    let label :=
      match tile.label with
      | some l => if l = "" then tileTypeLabel tile.type else l
      | none => tileTypeLabel tile.type
    let symbol := tile.type = "bonus" ∨ tile.type = "portal" ∨ tile.type = "gun"
    let indexText :=
      if tile.type = "finish" ∨ tile.position = lastPos then "F"
      else if tile.type = "start" ∨ tile.position = 0 then "S"
      else toString tile.position
    { position := tile.position, indexText := indexText, label := label,
      symbol := symbol, hasCurrent := hasCurrent }

/-- One row of the ranking list rendered by `updatePlayersUI`. -/
structure RankRow where
  rank : Nat
  name : String
  is_you : Bool
  is_current_turn : Bool
  hp : Int
  coins : Int
  position : Int
  deriving Repr, DecidableEq

/-- `updatePlayersUI` (game_board.js): de-duplicates the players, sorts by
position descending (stable) and numbers the rows 1..N. -/
def updatePlayersUI (st : GameState) : List RankRow :=
  let players := dedupPlayersById st.players
  let ranked := sortStable (fun a b => decide (b.position ≤ a.position)) players
  ranked.enum.map fun ip =>
    let p := ip.2
    let name := if p.username.trim = "" then "Player" else p.username.trim
    { rank := ip.1 + 1, name := name, is_you := p.is_you,
      is_current_turn := p.is_current_turn, hp := p.hp, coins := p.coins,
      position := p.position }

/-- One entry of the your-status panel rendered by `updatePlayerStatusUI`. -/
structure StatusRow where
  name : String
  initial : String
  hp : Int
  coins : Int
  position : Int
  alive : Bool
  is_you : Bool
  is_current_turn : Bool
  deriving Repr, DecidableEq

/-- `updatePlayerStatusUI` (game_board.js): de-duplicates the players,
sorts by turn order and shows only the row of the `is_you` player. -/
def updatePlayerStatusUI (st : GameState) : List StatusRow :=
  let players := dedupPlayersById st.players
  let sorted := sortStable (fun a b => decide (a.turn_order ≤ b.turn_order))
    players
  match sorted.find? (fun p => p.is_you) with
  | none => []
  | some p =>
    let name := if p.username.trim = "" then "Player" else p.username.trim
    let initial :=
      match name.data with
      | [] => "?"
      | c :: _ => String.mk [c.toUpper]
    [{ name := name, initial := initial, hp := p.hp, coins := p.coins,
       position := p.position, alive := p.is_alive, is_you := p.is_you,
       is_current_turn := p.is_current_turn }]

/-- A player token placed on a tile by `renderPlayerTokens`. -/
structure Token where
  initials : String
  isCurrent : Bool
  deriving Repr, DecidableEq

/-- `getPlayerInitials` (game_board.js). -/
def getPlayerInitials (p : Player) : String :=
  let name := p.username.trim
  if name = "" then "?"
  else
    match (name.split Char.isWhitespace).filter (fun s => s ≠ "") with
    | [x] => (x.take 2).toUpper
    | x :: y :: _ => (x.take 1 ++ y.take 1).toUpper
    | [] => "?"

/-- `renderPlayerTokens` (game_board.js): the tokens placed on the tile at
`pos`; portal tiles get no tokens, players are de-duplicated by id, and a
token is highlighted when `current_player_id` (truthy) equals its player
id. -/
def renderPlayerTokens (st : GameState) (pos : Int) : List Token :=
  let sortedTiles :=
    sortStable (fun a b => decide (a.position ≤ b.position)) st.tiles
  match sortedTiles.find? (fun t => decide (t.position = pos)) with
  | none => []
  | some tile =>
    if tile.type = "portal" then []
    else
      (dedupPlayersById st.players).filter
        (fun p => decide (p.position = pos)) |>.map fun p =>
          { initials := getPlayerInitials p,
            isCurrent :=
              match st.current_player_id with
              | some c => decide (c ≠ 0 ∧ c = p.id)
              | none => false }

/-! ## renderDuelUI (game_board.js) -/

/-- An opponent button of the choose-opponent grid. -/
structure OppButton where
  username : String
  hp : Int
  coins : Int
  deriving Repr, DecidableEq

/-- The reveal rows rendered in the winner-choice phase. -/
structure RevealRows where
  initiatorName : String
  initiatorChoice : String
  opponentName : String
  opponentChoice : String
  deriving Repr, DecidableEq

/-- The body content produced by `renderDuelUI`, one constructor per
rendered phase. -/
inductive DuelBody where
  | chooseOpponent (grid : List OppButton)
  | chooseOpponentNoTargets
  | commitButtons (waitingForOpponent : Bool)
  | predictButtons (waitingForOpponent : Bool)
  | winnerView (youWon : Bool) (revealRows : Option RevealRows)
      (rewardButtons : Bool)
  | resolvedView (isDraw : Bool)
  | empty
  deriving Repr, DecidableEq

/-- The `getName` helper of `renderDuelUI`. -/
def duelGetName (players : List Player) (pid : Nat) : String :=
  match players.find? (fun x => decide (x.id = pid)) with
  | some p => p.username
  | none => "Player " ++ toString pid

/-- `renderDuelUI` (game_board.js): one branch per `duel.status`; the
reveal block is read only in the winner-choice phase. -/
def renderDuelUI (duel : Duel) (st : GameState) : DuelBody :=
  let myId := st.you_player_id
  let players := st.players
  if duel.status = "choose_opponent" then
    let grid := players.filter fun p =>
      p.is_alive && !(match myId with
        | some m => decide (p.id = m)
        | none => false)
    if grid.isEmpty then DuelBody.chooseOpponentNoTargets
    else DuelBody.chooseOpponent
      (grid.map fun p => { username := p.username, hp := p.hp, coins := p.coins })
  else if duel.status = "commit" then
    DuelBody.commitButtons duel.you_committed
  else if duel.status = "predict" then
    DuelBody.predictButtons duel.you_predicted
  else if duel.status = "winner_choice" then
    let isWinner := duel.winner_id = myId
    let revealRows := duel.reveal.map fun r =>
      { initiatorName := duelGetName players duel.initiator_id,
        initiatorChoice := r.initiator_choice,
        opponentName := duelGetName players duel.opponent_id,
        opponentChoice := r.opponent_choice }
    DuelBody.winnerView isWinner revealRows isWinner
  else if duel.status = "resolved" then
    DuelBody.resolvedView duel.is_draw
  else DuelBody.empty

/-- C3: before the resolution phases, the rendered duel UI does not depend
on the reveal block carrying the committed choices: two duel payloads that
differ only in `reveal` render identically in the `choose_opponent`,
`commit` and `predict` phases, so the opponent learns nothing about a
committed choice before reveal. -/
theorem duel_commit_hidden_before_reveal (d : Duel) (st : GameState)
    (r : Option DuelReveal)
    (h : d.status = "choose_opponent" ∨ d.status = "commit" ∨
      d.status = "predict") :
    renderDuelUI { d with reveal := r } st = renderDuelUI d st := by
  obtain ⟨status, yc, yp, wid, iid, oid, draw, rev⟩ := d
  simp only at h
  rcases h with h | h | h <;> subst h <;> rfl

/-- Witness for C3: the commit phase rendered with and without a reveal
block carrying concrete choices. -/
theorem duel_commit_hidden_before_reveal_witness :
    renderDuelUI
        ⟨"commit", false, false, none, 1, 2, false,
          some ⟨"attack", "defend"⟩⟩
        ⟨1, "g", [], [], 0, some 2, some 1, none, none, none, none, none,
          none⟩
      = renderDuelUI ⟨"commit", false, false, none, 1, 2, false, none⟩
        ⟨1, "g", [], [], 0, some 2, some 1, none, none, none, none, none,
          none⟩ :=
  duel_commit_hidden_before_reveal
    ⟨"commit", false, false, none, 1, 2, false, none⟩
    ⟨1, "g", [], [], 0, some 2, some 1, none, none, none, none, none, none⟩
    (some ⟨"attack", "defend"⟩) (Or.inr (Or.inl rfl))

/-- C5 (amended): the four cited game_board.js renderers de-duplicate the
players by id keeping the first occurrence, so their output on a payload
with duplicate player entries equals their output on the payload with all
later duplicates removed. -/
theorem cited_renderers_dedup_invariant (st : GameState) :
    updateBoardUI { st with players := dedupPlayersById st.players }
        = updateBoardUI st ∧
    updatePlayersUI { st with players := dedupPlayersById st.players }
        = updatePlayersUI st ∧
    updatePlayerStatusUI { st with players := dedupPlayersById st.players }
        = updatePlayerStatusUI st ∧
    ∀ pos : Int,
      renderPlayerTokens { st with players := dedupPlayersById st.players } pos
        = renderPlayerTokens st pos := by
  refine ⟨?_, ?_, ?_, fun pos => ?_⟩
  · simp only [updateBoardUI, dedupPlayersById_idem]
  · simp only [updatePlayersUI, dedupPlayersById_idem]
  · simp only [updatePlayerStatusUI, dedupPlayersById_idem]
  · simp only [renderPlayerTokens, dedupPlayersById_idem]

/-- Counterexample for C5 as stated: `renderDuelUI` also consumes
`state.players` but renders the choose-opponent grid without
de-duplication, so a duplicated player entry yields two duplicate opponent
buttons and the output differs from the de-duplicated payload. -/
theorem render_consuming_players_without_dedup :
    renderDuelUI ⟨"choose_opponent", false, false, none, 1, 2, false, none⟩
        ⟨1, "g",
          [⟨2, "bob", 0, 3, 4, 1, true, false, false⟩,
           ⟨2, "bob", 0, 3, 4, 1, true, false, false⟩],
          [], 0, some 1, some 1, none, none, none, none, none, none⟩
      ≠
      renderDuelUI ⟨"choose_opponent", false, false, none, 1, 2, false, none⟩
        ⟨1, "g",
          dedupPlayersById
            [⟨2, "bob", 0, 3, 4, 1, true, false, false⟩,
             ⟨2, "bob", 0, 3, 4, 1, true, false, false⟩],
          [], 0, some 1, some 1, none, none, none, none, none, none⟩ := by
  decide

/-! ## C1: pending sub-interactions and the modals fetchGameState opens -/

/-- The kinds of pending-action modals the board page can open. -/
inductive PendingKind where
  | question
  | draft
  | gun
  | duel
  | shop
  deriving Repr, DecidableEq

/-- Whether `renderDraftUI` shows the draft modal: `state.draft` present
and `draft.active`. -/
def draftActive (s : GameState) : Bool :=
  match s.draft with
  | some d => d.active
  | none => false

/-- The pending-action modals left open after the render sequence of
`fetchGameState`: `renderQuestionUI` shows the question modal iff
`pending_question` is present, `renderDraftUI` iff the draft is active,
`renderGunUI` iff `pending_gun` is present, then the duel modal iff
`pending_duel` and the shop modal iff `pending_shop`. -/
def openPendingModals (s : GameState) : List PendingKind :=
  (if s.pending_question.isSome then [PendingKind.question] else []) ++
  (if draftActive s then [PendingKind.draft] else []) ++
  (if s.pending_gun.isSome then [PendingKind.gun] else []) ++
  (if s.pending_duel.isSome then [PendingKind.duel] else []) ++
  (if s.pending_shop.isSome then [PendingKind.shop] else [])

/-- Modelled from the spec: the server-side Pending Action Resolver is not
part of the shipped source (only the client is).  Per the specification a
Game owns at most one active PendingAction at any time, so a snapshot it
serves carries at most one of the pending sub-interactions
(`pending_question`, `pending_shop`, `pending_duel`, `pending_gun`, active
draft). -/
def pendingActionCount (s : GameState) : Nat :=
  (if s.pending_question.isSome then 1 else 0) +
  (if s.pending_shop.isSome then 1 else 0) +
  (if s.pending_duel.isSome then 1 else 0) +
  (if s.pending_gun.isSome then 1 else 0) +
  (if draftActive s then 1 else 0)

/-- Modelled from the spec: the at-most-one-PendingAction invariant of a
served snapshot. -/
def atMostOnePendingAction (s : GameState) : Prop :=
  pendingActionCount s ≤ 1

/-- C1: for every snapshot satisfying the (spec-modelled) server invariant
of at most one open PendingAction, the per-kind rendering of
`fetchGameState` leaves at most one pending-action modal open. -/
theorem at_most_one_pending_modal (s : GameState)
    (h : atMostOnePendingAction s) : (openPendingModals s).length ≤ 1 := by
  unfold atMostOnePendingAction pendingActionCount at h
  unfold openPendingModals
  simp only [List.length_append]
  split_ifs at h ⊢ <;> simp_all

/-- Witness for C1: a snapshot with exactly a pending question open. -/
theorem at_most_one_pending_modal_witness :
    (openPendingModals
      ⟨1, "active", [], [], 0, none, none,
        some ⟨none, "q", [], none, false⟩, none, none, none, none,
        none⟩).length ≤ 1 :=
  at_most_one_pending_modal
    ⟨1, "active", [], [], 0, none, none,
      some ⟨none, "q", [], none, false⟩, none, none, none, none, none⟩
    (by unfold atMostOnePendingAction; decide)

/-! ## C6: mutation response handling

`handleRollClick` and `shopBuyCard` (game_board.js).  A response is its
`ok` flag, HTTP status and parsed JSON body (`none` when `safeJson`
failed); mutation bodies carry an optional `detail` and an optional
`game_state`. -/

/-- Parsed JSON body of a mutation response. -/
structure RespBody where
  detail : Option String
  game_state : Option GameState
  deriving Repr, DecidableEq

/-- A fetch response as the handlers see it. -/
structure Resp where
  ok : Bool
  status : Nat
  body : Option RespBody
  deriving Repr, DecidableEq

/-- Outcome of the roll handler's response processing. -/
structure RollOutcome where
  message : Option String
  applied : Option GameState
  appliedRawBody : Bool
  repolled : Bool
  deriving Repr, DecidableEq

/-- The response processing of `handleRollClick`: on a non-ok response show
`detail` (or `Error: status`), apply nothing, and re-poll the state
endpoint; on an ok response apply `data.game_state` (falling back to the
raw body when `game_state` is absent, per `data.game_state || data`). -/
def handleRollResponse (resp : Resp) : RollOutcome :=
  if resp.ok = false then
    { message := some (match resp.body with
        | some b =>
          match b.detail with
          | some d => d
          | none => "Error: " ++ toString resp.status
        | none => "Error: " ++ toString resp.status),
      applied := none, appliedRawBody := false, repolled := true }
  else
    match resp.body with
    | some b =>
      match b.game_state with
      | some gs =>
        { message := none, applied := some gs, appliedRawBody := false,
          repolled := false }
      | none =>
        { message := none, applied := none, appliedRawBody := true,
          repolled := false }
    | none =>
      { message := none, applied := none, appliedRawBody := false,
        repolled := false }

/-- Outcome of the shop-buy handler's response processing. -/
structure ShopOutcome where
  feedback : Option String
  applied : Option GameState
  deriving Repr, DecidableEq

/-- The response processing of `shopBuyCard`: on a non-ok response show
`detail` (or the fixed text `Failed to buy.`) and apply nothing; on an ok
response `applyGameStateUpdate` applies `payload.game_state` when
present. -/
def shopBuyResponse (resp : Resp) : ShopOutcome :=
  if resp.ok = false then
    { feedback := some (match resp.body with
        | some b => b.detail.getD "Failed to buy."
        | none => "Failed to buy."),
      applied := none }
  else
    { feedback := none,
      applied := match resp.body with
        | some b => b.game_state
        | none => none }

/-- C6 (amended): on a success response carrying a `game_state` snapshot
both handlers apply it; on a failure response neither handler applies any
state, both surface `detail` when present, and with `detail` absent the
roll handler falls back to the HTTP status code while the shop handler
falls back to a fixed message; the roll handler additionally re-polls the
state endpoint after a failure. -/
theorem mutation_response_contract (resp : Resp) :
    (resp.ok = false →
      (handleRollResponse resp).applied = none ∧
      (handleRollResponse resp).repolled = true ∧
      (shopBuyResponse resp).applied = none) ∧
    (∀ b d, resp.ok = false → resp.body = some b → b.detail = some d →
      (handleRollResponse resp).message = some d ∧
      (shopBuyResponse resp).feedback = some d) ∧
    (∀ b, resp.ok = false → resp.body = some b → b.detail = none →
      (handleRollResponse resp).message =
        some ("Error: " ++ toString resp.status) ∧
      (shopBuyResponse resp).feedback = some "Failed to buy.") ∧
    (∀ b gs, resp.ok = true → resp.body = some b → b.game_state = some gs →
      (handleRollResponse resp).applied = some gs ∧
      (handleRollResponse resp).repolled = false ∧
      (shopBuyResponse resp).applied = some gs) := by
  refine ⟨?_, ?_, ?_, ?_⟩
  · intro h
    simp [handleRollResponse, shopBuyResponse, h]
  · intro b d h hb hd
    simp [handleRollResponse, shopBuyResponse, h, hb, hd]
  · intro b h hb hd
    simp [handleRollResponse, shopBuyResponse, h, hb, hd]
  · intro b gs h hb hgs
    simp [handleRollResponse, shopBuyResponse, h, hb, hgs]

/-- Witness for C6: the contract applied to one failure response with a
detail message and one success response carrying a snapshot. -/
theorem mutation_response_contract_witness :
    ((handleRollResponse ⟨false, 403, some ⟨some "Not your turn.", none⟩⟩).message
        = some "Not your turn." ∧
      (shopBuyResponse ⟨false, 403, some ⟨some "Not your turn.", none⟩⟩).feedback
        = some "Not your turn.") ∧
    (handleRollResponse ⟨false, 403, some ⟨some "Not your turn.", none⟩⟩).repolled
      = true :=
  ⟨(mutation_response_contract ⟨false, 403, some ⟨some "Not your turn.", none⟩⟩).2.1
      ⟨some "Not your turn.", none⟩ "Not your turn." rfl rfl rfl,
    ((mutation_response_contract ⟨false, 403, some ⟨some "Not your turn.", none⟩⟩).1
      rfl).2.1⟩

/-- Counterexample for C6 as stated: with `detail` absent the shop-buy
handler surfaces the fixed text `Failed to buy.`, not the HTTP status
code, so the client does not always fall back to the status code. -/
theorem mutation_error_status_fallback_counterexample :
    (shopBuyResponse ⟨false, 500, some ⟨none, none⟩⟩).feedback
        = some "Failed to buy." ∧
      (shopBuyResponse ⟨false, 500, some ⟨none, none⟩⟩).feedback
        ≠ some "Error: 500" := by
  constructor
  · rfl
  · intro h
    simp [shopBuyResponse] at h

/-! ## C4: the question countdown (game_board.js)

`showQuestionModal` starts `startQuestionTimer(5, ...)` only when the
question key differs from `ACTIVE_QUESTION_KEY` (so polling re-renders of
the same question do not restart the countdown); the countdown ticks once
per second and on reaching zero submits `timeout: true` to the
`answer_question` endpoint (after a one-second UI grace delay); clicking
an answer clears `ACTIVE_QUESTION_KEY` and stops the timer. -/

/-- `getQuestionKey`: `id:` key when the backend supplied an id, otherwise
a best-effort key from the prompt and correct index; `null` questions give
`null`. -/
def getQuestionKey (q : Option Question) : Option String :=
  match q with
  | none => none
  | some q =>
    match q.id with
    | some i => some ("id:" ++ toString i)
    | none =>
      some ("p:" ++ q.prompt ++ "|c:" ++
        (match q.correct_index with
         | some c => toString c
         | none => ""))

/-- The module-level timer state: `ACTIVE_QUESTION_KEY` and the remaining
seconds of the running countdown (`none` when no countdown runs). -/
structure QTimerState where
  activeKey : Option String
  remaining : Option Nat
  deriving Repr, DecidableEq

/-- Timer-related effects of the client. -/
inductive TimerAction where
  | stopTimer
  | startTimer (seconds : Nat)
  | submitTimeout (timeout : Bool)
  deriving Repr, DecidableEq

/-- The timer handling of `showQuestionModal q`: when the shown question's
key equals the active key the timer is untouched; otherwise the active key
is replaced and a fresh five-second countdown starts. -/
def showQuestionModalTimer (s : QTimerState) (q : Question) :
    QTimerState × List TimerAction :=
  let qKey := getQuestionKey (some q)
  let isSame : Bool :=
    match s.activeKey, qKey with
    | some a, some k => decide (a = k)
    | _, _ => false
  if isSame then (s, [])
  else ({ activeKey := qKey, remaining := some 5 },
    [TimerAction.stopTimer, TimerAction.startTimer 5])

/-- An answer-button click: clear the active key and stop the timer. -/
def answerClick (_s : QTimerState) : QTimerState × List TimerAction :=
  ({ activeKey := none, remaining := none }, [TimerAction.stopTimer])

/-- One one-second tick of `startQuestionTimer`'s interval: decrement, and
on reaching zero stop and submit the `timeout: true` resolution. -/
def tickSecond (s : QTimerState) : QTimerState × List TimerAction :=
  match s.remaining with
  | none => (s, [])
  | some r =>
    let r' := r - 1
    if r' = 0 then
      ({ s with remaining := none }, [TimerAction.submitTimeout true])
    else ({ s with remaining := some r' }, [])

/-- Run `n` consecutive ticks, collecting the emitted actions. -/
def runTicks (s : QTimerState) : Nat → QTimerState × List TimerAction
  | 0 => (s, [])
  | n + 1 =>
    let t1 := tickSecond s
    let t2 := runTicks t1.1 n
    (t2.1, t1.2 ++ t2.2)

lemma runTicks_stopped (a : Option String) :
    ∀ n, runTicks ⟨a, none⟩ n = (⟨a, none⟩, []) := by
  intro n
  induction n with
  | zero => rfl
  | succ n ih => simp [runTicks, tickSecond, ih]

/-- C4: polling re-renders of the same question do not restart the
countdown; a new question starts exactly one five-second countdown; a
fresh countdown submits exactly one `timeout: true` resolution at its
fifth tick; and answering stops the timer, after which no tick ever
submits a timeout. -/
theorem question_timeout_contract :
    (∀ (s : QTimerState) (q : Question),
      s.activeKey = getQuestionKey (some q) →
      showQuestionModalTimer s q = (s, [])) ∧
    (∀ (s : QTimerState) (q : Question),
      s.activeKey ≠ getQuestionKey (some q) →
      (showQuestionModalTimer s q).1
          = ⟨getQuestionKey (some q), some 5⟩ ∧
      (showQuestionModalTimer s q).2
          = [TimerAction.stopTimer, TimerAction.startTimer 5]) ∧
    (∀ a : Option String,
      (runTicks ⟨a, some 5⟩ 5).2 = [TimerAction.submitTimeout true] ∧
      ∀ m, m < 5 → (runTicks ⟨a, some 5⟩ m).2 = []) ∧
    (∀ (s : QTimerState) (n : Nat),
      (answerClick s).1.remaining = none ∧
      (runTicks (answerClick s).1 n).2 = []) := by
  refine ⟨?_, ?_, ?_, ?_⟩
  · intro s q h
    obtain ⟨qid, qprompt, qch, qci, qco⟩ := q
    obtain ⟨k, hk⟩ : ∃ k,
        getQuestionKey (some ⟨qid, qprompt, qch, qci, qco⟩) = some k := by
      unfold getQuestionKey
      cases qid <;> simp
    simp [showQuestionModalTimer, h, hk]
  · intro s q h
    obtain ⟨qid, qprompt, qch, qci, qco⟩ := q
    obtain ⟨k, hk⟩ : ∃ k,
        getQuestionKey (some ⟨qid, qprompt, qch, qci, qco⟩) = some k := by
      unfold getQuestionKey
      cases qid <;> simp
    rw [hk] at h ⊢
    cases ha : s.activeKey with
    | none => simp [showQuestionModalTimer, ha, hk]
    | some a =>
      rw [ha] at h
      have hne : ¬(a = k) := fun hh => h (by rw [hh])
      simp [showQuestionModalTimer, ha, hk, hne]
  · intro a
    constructor
    · rfl
    · intro m hm
      interval_cases m <;> rfl
  · intro s n
    exact ⟨rfl, by rw [show (answerClick s).1 = ⟨none, none⟩ from rfl,
      runTicks_stopped]⟩

/-- Witness for C4: a re-render of the same question (key `id:7`) leaves
the timer state untouched, and a countdown for a fresh question starts at
five seconds. -/
theorem question_timeout_contract_witness :
    showQuestionModalTimer ⟨some "id:7", some 3⟩
        ⟨some 7, "p", [], none, false⟩
      = (⟨some "id:7", some 3⟩, []) ∧
    (showQuestionModalTimer ⟨none, none⟩
        ⟨some 7, "p", [], none, false⟩).1
      = ⟨getQuestionKey (some ⟨some 7, "p", [], none, false⟩), some 5⟩ :=
  ⟨question_timeout_contract.1 ⟨some "id:7", some 3⟩
      ⟨some 7, "p", [], none, false⟩ (by decide),
   (question_timeout_contract.2.1 ⟨none, none⟩
      ⟨some 7, "p", [], none, false⟩ (by decide)).1⟩

/-! ## C10: updateActivityFromStateDiff (game_board.js)

`window.BQ_ACTIVITY` holds `lastPlayers` (a JS `Map` from player id to the
last recorded position/hp/coins) and `seenKeys` (a `Set` of emitted
deduplication keys).  The first processed snapshot only records a
baseline; afterwards a line is appended per player whose tracked stats
changed, guarded by a per-session deduplication key. -/

/-- The per-player snapshot stored in `lastPlayers`. -/
structure PSnap where
  position : Int
  hp : Int
  coins : Int
  deriving Repr, DecidableEq

/-- The `window.BQ_ACTIVITY` tracker. -/
structure ActivityTracker where
  lastPlayers : List (Nat × PSnap)
  seenKeys : List String
  deriving Repr, DecidableEq

/-- JS `Map.set`: replace the value at the key in place, else append. -/
def mapSet (m : List (Nat × PSnap)) (k : Nat) (v : PSnap) :
    List (Nat × PSnap) :=
  match m with
  | [] => [(k, v)]
  | (k', v') :: rest =>
    if k' = k then (k, v) :: rest else (k', v') :: mapSet rest k v

/-- Rebuild `lastPlayers` from a player list (`clear` then `set` each). -/
def snapshotPlayers (ps : List Player) : List (Nat × PSnap) :=
  ps.foldl (fun m p => mapSet m p.id ⟨p.position, p.hp, p.coins⟩) []

/-- `tileByPosition`: the first tile at the given position. -/
def tileByPosition (st : GameState) (pos : Int) : Option Tile :=
  st.tiles.find? (fun t => decide (t.position = pos))

/-- The `(landed: ...)` suffix: `type_display || type`, dropped when
empty or when no tile is found. -/
def landedLabel (next : GameState) (pos : Int) : Option String :=
  match tileByPosition next pos with
  | none => none
  | some t =>
    let lbl :=
      match t.type_display with
      | some d => if d = "" then t.type else d
      | none => t.type
    if lbl = "" then none else some lbl

/-- The text content of an appended activity line (the HP and coin deltas
are rendered as suffixes when nonzero). -/
inductive ActText where
  | moved (fromPos toPos : Int) (landed : Option String)
      (hpDelta coinsDelta : Int)
  | updatedStats (hpDelta coinsDelta : Int)
  deriving Repr, DecidableEq

/-- An appended activity line. -/
structure ActLine where
  playerId : Nat
  key : String
  text : ActText
  deriving Repr, DecidableEq

/-- The deduplication key
`(p.id)|(old.position)->(p.position)|hp(hpDelta)|c(coinsDelta)`. -/
def diffKey (pid : Nat) (oldPos newPos hpD coinsD : Int) : String :=
  toString pid ++ "|" ++ toString oldPos ++ "->" ++ toString newPos ++
    "|hp" ++ toString hpD ++ "|c" ++ toString coinsD

/-- The loop body of `updateActivityFromStateDiff` for one player of the
new snapshot: skip players without a tracked entry or without changes,
then append a line unless its key was already seen (adding the key). -/
def diffStep (lastP : List (Nat × PSnap)) (next : GameState)
    (acc : List String × List ActLine) (p : Player) :
    List String × List ActLine :=
  match lastP.lookup p.id with
  | none => acc
  | some old =>
    let hpD := p.hp - old.hp
    let coinsD := p.coins - old.coins
    if old.position = p.position ∧ hpD = 0 ∧ coinsD = 0 then acc
    else
      let text :=
        if old.position = p.position then ActText.updatedStats hpD coinsD
        else ActText.moved old.position p.position (landedLabel next p.position)
          hpD coinsD
      let key := diffKey p.id old.position p.position hpD coinsD
      if key ∈ acc.1 then acc
      else (key :: acc.1, acc.2 ++ [⟨p.id, key, text⟩])

/-- `updateActivityFromStateDiff`: with no previous state only the
baseline is recorded; otherwise the loop above runs over the new players
and the baseline is re-recorded. -/
def updateActivityFromStateDiff (t : ActivityTracker)
    (prev : Option GameState) (next : GameState) :
    ActivityTracker × List ActLine :=
  match prev with
  | none =>
    ({ lastPlayers := snapshotPlayers next.players,
       seenKeys := t.seenKeys }, [])
  | some _ =>
    let r := next.players.foldl (diffStep t.lastPlayers next)
      (t.seenKeys, [])
    ({ lastPlayers := snapshotPlayers next.players, seenKeys := r.1 }, r.2)

/-- Process a sequence of polled snapshots, collecting all appended
lines. -/
def runActivitySession (t : ActivityTracker) :
    List (Option GameState × GameState) → ActivityTracker × List ActLine
  | [] => (t, [])
  | e :: rest =>
    let r1 := updateActivityFromStateDiff t e.1 e.2
    let r2 := runActivitySession r1.1 rest
    (r2.1, r1.2 ++ r2.2)

/-- A line is justified: it belongs to a player of the new snapshot whose
tracked position, hp or coins changed, and carries that diff's key. -/
def ChangedLine (lastP : List (Nat × PSnap)) (next : GameState)
    (l : ActLine) : Prop :=
  ∃ p ∈ next.players, ∃ old, lastP.lookup p.id = some old ∧
    l.playerId = p.id ∧
    (old.position ≠ p.position ∨ p.hp - old.hp ≠ 0 ∨
      p.coins - old.coins ≠ 0) ∧
    l.key = diffKey p.id old.position p.position (p.hp - old.hp)
      (p.coins - old.coins)

/-- The loop invariant of the diff fold. -/
def ActInv (seen0 : List String) (lastP : List (Nat × PSnap))
    (next : GameState) (acc : List String × List ActLine) : Prop :=
  (∀ k ∈ seen0, k ∈ acc.1) ∧
  (∀ l ∈ acc.2, l.key ∈ acc.1) ∧
  (∀ l ∈ acc.2, l.key ∉ seen0) ∧
  (acc.2.map (fun l => l.key)).Nodup ∧
  (∀ l ∈ acc.2, ChangedLine lastP next l)

lemma diffStep_inv (seen0 : List String) (lastP : List (Nat × PSnap))
    (next : GameState) (p : Player) (hp : p ∈ next.players)
    (acc : List String × List ActLine) (h : ActInv seen0 lastP next acc) :
    ActInv seen0 lastP next (diffStep lastP next acc p) := by
  obtain ⟨h1, h2, h3, h4, h5⟩ := h
  unfold diffStep
  cases hlook : lastP.lookup p.id with
  | none => exact ⟨h1, h2, h3, h4, h5⟩
  | some old =>
    by_cases hch : old.position = p.position ∧ p.hp - old.hp = 0 ∧
        p.coins - old.coins = 0
    · simp only [if_pos hch]
      exact ⟨h1, h2, h3, h4, h5⟩
    · simp only [if_neg hch]
      by_cases hkey : diffKey p.id old.position p.position (p.hp - old.hp)
          (p.coins - old.coins) ∈ acc.1
      · simp only [if_pos hkey]
        exact ⟨h1, h2, h3, h4, h5⟩
      · simp only [if_neg hkey]
        refine ⟨?_, ?_, ?_, ?_, ?_⟩
        · intro k hk
          exact List.mem_cons_of_mem _ (h1 k hk)
        · intro l hl
          rcases List.mem_append.mp hl with hl | hl
          · exact List.mem_cons_of_mem _ (h2 l hl)
          · rcases List.mem_singleton.mp hl with rfl
            exact List.mem_cons_self _ _
        · intro l hl
          rcases List.mem_append.mp hl with hl | hl
          · exact h3 l hl
          · rcases List.mem_singleton.mp hl with rfl
            intro hcon
            exact hkey (h1 _ hcon)
        · rw [List.map_append]
          refine List.Nodup.append h4 (List.nodup_singleton _) ?_
          intro a ha ha'
          simp only [List.map_cons, List.map_nil, List.mem_singleton] at ha'
          subst ha'
          rcases List.mem_map.mp ha with ⟨l, hl, hlk⟩
          have hlk2 : l.key = diffKey p.id old.position p.position
              (p.hp - old.hp) (p.coins - old.coins) := by simpa using hlk
          exact hkey (hlk2 ▸ h2 l hl)
        · intro l hl
          rcases List.mem_append.mp hl with hl | hl
          · exact h5 l hl
          · rcases List.mem_singleton.mp hl with rfl
            refine ⟨p, hp, old, hlook, rfl, ?_, rfl⟩
            by_cases hpos : old.position = p.position
            · by_cases hhp : p.hp - old.hp = 0
              · right; right
                intro hco
                exact hch ⟨hpos, hhp, hco⟩
              · right; left; exact hhp
            · left; exact hpos

lemma foldl_diffStep_inv (seen0 : List String) (lastP : List (Nat × PSnap))
    (next : GameState) :
    ∀ (ps : List Player) (acc : List String × List ActLine),
      (∀ p ∈ ps, p ∈ next.players) → ActInv seen0 lastP next acc →
      ActInv seen0 lastP next (ps.foldl (diffStep lastP next) acc) := by
  intro ps
  induction ps with
  | nil => intro acc _ h; exact h
  | cons p rest ih =>
    intro acc hmem h
    rw [List.foldl_cons]
    exact ih _ (fun q hq => hmem q (List.mem_cons_of_mem p hq))
      (diffStep_inv seen0 lastP next p (hmem p (List.mem_cons_self p rest))
        acc h)

lemma updateActivity_call (t : ActivityTracker) (prev : Option GameState)
    (next : GameState) :
    (∀ l ∈ (updateActivityFromStateDiff t prev next).2,
      l.key ∉ t.seenKeys) ∧
    ((updateActivityFromStateDiff t prev next).2.map
      (fun l => l.key)).Nodup ∧
    (∀ k ∈ t.seenKeys,
      k ∈ (updateActivityFromStateDiff t prev next).1.seenKeys) ∧
    (∀ l ∈ (updateActivityFromStateDiff t prev next).2,
      l.key ∈ (updateActivityFromStateDiff t prev next).1.seenKeys) := by
  cases prev with
  | none =>
    refine ⟨?_, ?_, ?_, ?_⟩ <;>
      simp [updateActivityFromStateDiff]
  | some g =>
    have hinit : ActInv t.seenKeys t.lastPlayers next (t.seenKeys, []) := by
      refine ⟨fun k hk => hk, ?_, ?_, List.nodup_nil, ?_⟩ <;>
        intro l hl <;> cases hl
    have hinv := foldl_diffStep_inv t.seenKeys t.lastPlayers next
      next.players (t.seenKeys, []) (fun p h => h) hinit
    obtain ⟨h1, h2, h3, h4, h5⟩ := hinv
    exact ⟨h3, h4, h1, h2⟩

lemma runActivitySession_spec
    (evts : List (Option GameState × GameState)) :
    ∀ t : ActivityTracker,
      (∀ l ∈ (runActivitySession t evts).2, l.key ∉ t.seenKeys) ∧
      ((runActivitySession t evts).2.map (fun l => l.key)).Nodup ∧
      (∀ k ∈ t.seenKeys,
        k ∈ (runActivitySession t evts).1.seenKeys) ∧
      (∀ l ∈ (runActivitySession t evts).2,
        l.key ∈ (runActivitySession t evts).1.seenKeys) := by
  induction evts with
  | nil =>
    intro t
    refine ⟨?_, ?_, fun k hk => hk, ?_⟩ <;>
      first
        | (intro l hl; cases hl)
        | exact List.nodup_nil
  | cons e rest ih =>
    intro t
    obtain ⟨c1, c2, c3, c4⟩ := updateActivity_call t e.1 e.2
    obtain ⟨i1, i2, i3, i4⟩ :=
      ih (updateActivityFromStateDiff t e.1 e.2).1
    rw [show (runActivitySession t (e :: rest)).2
        = (updateActivityFromStateDiff t e.1 e.2).2 ++
          (runActivitySession (updateActivityFromStateDiff t e.1 e.2).1
            rest).2 from rfl,
      show (runActivitySession t (e :: rest)).1
        = (runActivitySession (updateActivityFromStateDiff t e.1 e.2).1
            rest).1 from rfl]
    refine ⟨?_, ?_, ?_, ?_⟩
    · intro l hl
      rcases List.mem_append.mp hl with hl | hl
      · exact c1 l hl
      · intro hcon
        exact i1 l hl (c3 _ hcon)
    · rw [List.map_append]
      refine List.Nodup.append c2 i2 ?_
      intro a ha ha'
      rcases List.mem_map.mp ha with ⟨l, hl, hlk⟩
      rcases List.mem_map.mp ha' with ⟨l', hl', hlk'⟩
      apply i1 l' hl'
      rw [show l'.key = a from hlk']
      rw [← show l.key = a from hlk]
      exact c4 l hl
    · intro k hk
      exact i3 k (c3 k hk)
    · intro l hl
      rcases List.mem_append.mp hl with hl | hl
      · exact i3 _ (c4 l hl)
      · exact i4 l hl

/-- C10: the first processed snapshot appends no lines and only records
the baseline; every appended line belongs to a player whose tracked
position, hp or coins changed (with the matching deduplication key); and
over an entire session every deduplication key is appended at most once
(all session line keys are distinct and none was already seen). -/
theorem activity_diff_contract :
    (∀ (t : ActivityTracker) (next : GameState),
      updateActivityFromStateDiff t none next
        = ({ lastPlayers := snapshotPlayers next.players,
             seenKeys := t.seenKeys }, [])) ∧
    (∀ (t : ActivityTracker) (prev next : GameState),
      ∀ l ∈ (updateActivityFromStateDiff t (some prev) next).2,
        ChangedLine t.lastPlayers next l) ∧
    (∀ (t : ActivityTracker) (evts : List (Option GameState × GameState)),
      (∀ l ∈ (runActivitySession t evts).2, l.key ∉ t.seenKeys) ∧
      ((runActivitySession t evts).2.map (fun l => l.key)).Nodup) := by
  refine ⟨fun t next => rfl, ?_, ?_⟩
  · intro t prev next
    have hinit : ActInv t.seenKeys t.lastPlayers next (t.seenKeys, []) := by
      refine ⟨fun k hk => hk, ?_, ?_, List.nodup_nil, ?_⟩ <;>
        intro l hl <;> cases hl
    have hinv := foldl_diffStep_inv t.seenKeys t.lastPlayers next
      next.players (t.seenKeys, []) (fun p h => h) hinit
    exact hinv.2.2.2.2
  · intro t evts
    obtain ⟨s1, s2, _, _⟩ := runActivitySession_spec evts t
    exact ⟨s1, s2⟩

/-- Witness for C10: a concrete diff (player 2 moved from tile 0 to
tile 1) appends exactly the justified line. -/
theorem activity_diff_contract_witness :
    ChangedLine [(2, ⟨0, 5, 0⟩)]
      ⟨1, "active", [⟨2, "bob", 1, 5, 0, 0, true, false, false⟩], [], 0,
        none, none, none, none, none, none, none, none⟩
      ⟨2, "2|0->1|hp0|c0", ActText.moved 0 1 none 0 0⟩ :=
  activity_diff_contract.2.1 ⟨[(2, ⟨0, 5, 0⟩)], []⟩
    ⟨1, "active", [], [], 0, none, none, none, none, none, none, none,
      none⟩
    ⟨1, "active", [⟨2, "bob", 1, 5, 0, 0, true, false, false⟩], [], 0,
      none, none, none, none, none, none, none, none⟩
    ⟨2, "2|0->1|hp0|c0", ActText.moved 0 1 none 0 0⟩ (by decide)

/-! ## C2: advanceTurn (spec-modelled)

The Turn Coordinator lives server-side and is not part of the shipped
source; only the polling client is.  The definitions below are modelled
from the specification text of `advanceTurn(game)`. -/

/-- Modelled from the spec: a server-side player record of the Turn
Coordinator (the shipped source has no server code). -/
structure SPlayer where
  id : Nat
  turn_order : Int
  is_alive : Bool
  deriving Repr, DecidableEq

/-- Modelled from the spec: the server-side Game record seen by
`advanceTurn`. -/
structure SGame where
  players : List SPlayer
  current_player_id : Nat
  status : String
  deriving Repr, DecidableEq

/-- Result of `advanceTurn`: the next game state, or a failure with the
error name and the transitioned game state. -/
inductive AdvanceResult where
  | next (g : SGame)
  | failed (err : String) (g : SGame)
  deriving Repr, DecidableEq

/-- Modelled from the spec: the players in ascending `turn_order`. -/
def orderedPlayers (g : SGame) : List SPlayer :=
  sortStable (fun a b => decide (a.turn_order ≤ b.turn_order)) g.players

/-- Modelled from the spec: the candidates following the current player in
ascending `turn_order`, wrapping around the whole roster. -/
def advanceCandidates (g : SGame) : List SPlayer :=
  (List.range (orderedPlayers g).length).filterMap
    (fun k => (orderedPlayers g)[((orderedPlayers g).findIdx
      (fun p => decide (p.id = g.current_player_id)) + 1 + k) %
      (orderedPlayers g).length]?)

/-- Modelled from the spec: `advanceTurn(game)` selects the next alive
player by ascending `turn_order` with wrap-around, skipping eliminated
players; when none remain it fails with `NoAlivePlayers`, transitioning
the Game to `finished`. -/
def advanceTurn (g : SGame) : AdvanceResult :=
  match (advanceCandidates g).find? (fun p => p.is_alive) with
  | some p => AdvanceResult.next { g with current_player_id := p.id }
  | none =>
    AdvanceResult.failed "NoAlivePlayers" { g with status := "finished" }

lemma wrap_index_hit (n cur i : Nat) (hn : 0 < n) (hi : i < n) :
    ∃ k, k < n ∧ (cur + 1 + k) % n = i := by
  set c := (cur + 1) % n with hcdef
  have hc : c < n := Nat.mod_lt _ hn
  refine ⟨(i + n - c) % n, Nat.mod_lt _ hn, ?_⟩
  have h1 : (cur + 1 + (i + n - c) % n) % n
      = (c + (i + n - c) % n) % n :=
    ((Nat.mod_modEq (cur + 1) n).add_right ((i + n - c) % n)).symm
  have h2 : (c + (i + n - c) % n) % n = (c + (i + n - c)) % n :=
    (Nat.mod_modEq (i + n - c) n).add_left c
  have h3 : c + (i + n - c) = i + n := by omega
  rw [h1, h2, h3, Nat.add_mod_right]
  exact Nat.mod_eq_of_lt hi

lemma mem_advanceCandidates (g : SGame) {p : SPlayer}
    (hp : p ∈ orderedPlayers g) : p ∈ advanceCandidates g := by
  obtain ⟨i, hi, hgi⟩ := List.getElem_of_mem hp
  have hn : 0 < (orderedPlayers g).length := by omega
  obtain ⟨k, hk, hkeq⟩ := wrap_index_hit (orderedPlayers g).length
    ((orderedPlayers g).findIdx (fun q => decide (q.id = g.current_player_id)))
    i (by omega) hi
  refine List.mem_filterMap.mpr ⟨k, List.mem_range.mpr hk, ?_⟩
  rw [hkeq, List.getElem?_eq_getElem hi, hgi]

/-- C2 (spec-modelled): `advanceTurn` either yields a game whose current
player is an alive member of the unchanged roster, or, exactly when no
alive player remains, fails with `NoAlivePlayers` and transitions the game
to `finished`. -/
theorem advanceTurn_alive_or_finished (g : SGame) :
    (∃ g', advanceTurn g = AdvanceResult.next g' ∧
      g'.players = g.players ∧
      ∃ p ∈ g'.players, p.id = g'.current_player_id ∧ p.is_alive = true) ∨
    (advanceTurn g = AdvanceResult.failed "NoAlivePlayers"
        { g with status := "finished" } ∧
      ∀ p ∈ g.players, p.is_alive = false) := by
  unfold advanceTurn
  cases hfind : (advanceCandidates g).find? (fun p => p.is_alive) with
  | some p =>
    left
    refine ⟨{ g with current_player_id := p.id }, rfl, rfl, p, ?_, rfl, ?_⟩
    · have hcand := List.mem_of_find?_eq_some hfind
      have hord : p ∈ orderedPlayers g := by
        rcases List.mem_filterMap.mp hcand with ⟨k, _, hk⟩
        exact List.getElem?_mem hk
      exact (sortStable_perm _ g.players).mem_iff.mp hord
    · exact List.find?_some hfind
  | none =>
    right
    refine ⟨rfl, ?_⟩
    intro p hp
    have hord : p ∈ orderedPlayers g :=
      (sortStable_perm _ g.players).mem_iff.mpr hp
    have hcand : p ∈ advanceCandidates g := mem_advanceCandidates g hord
    have := List.find?_eq_none.mp hfind p hcand
    cases hal : p.is_alive with
    | false => rfl
    | true => exact absurd hal this

/-- Witness for C2: with one alive player the turn advances to an alive
current player. -/
theorem advanceTurn_alive_or_finished_witness :
    ∃ g', advanceTurn ⟨[⟨1, 0, true⟩, ⟨2, 1, false⟩], 2, "active"⟩
        = AdvanceResult.next g' ∧
      ∃ p ∈ g'.players, p.id = g'.current_player_id ∧
        p.is_alive = true := by
  rcases advanceTurn_alive_or_finished
      ⟨[⟨1, 0, true⟩, ⟨2, 1, false⟩], 2, "active"⟩ with
    ⟨g', h1, _, h3⟩ | ⟨h1, _⟩
  · exact ⟨g', h1, h3⟩
  · exact absurd h1 (by decide)
